import Mathlib

/-!
Shallow embedding of the Tasks.md desktop backend (src-tauri/src/main.rs).

The backend is a set of Tauri command handlers over two directory roots:
`config_dir` (tags.json, sort.json, images/) and `tasks_dir` (board/lane/card
tree).  We embed:

* JSON values (`Json`) standing for `serde_json::Value`; object maps are
  association lists, with `serde_json::Map::insert` / `get` semantics.
* The two JSON map stores (tags.json / sort.json).  A backing file is modelled
  by `MapFile`: `missing` (read_to_string fails because the file is absent or
  unreadable), `malformed` (the content does not parse), or `json v` (the file
  holds the serialization of `v`; serde round-trips `Value`s faithfully, so we
  keep the parsed value).  OS-level write failures are outside the model: the
  mutating commands return the new file state, corresponding to the `Ok(())`
  path of the Rust code.
* A filesystem (`FS`) as an association list from paths to entries.  Paths are
  keyed by their `/`-separated segments (`FPath`), which is how the OS
  interprets the path strings the Rust code builds with `format!`.  All of the
  string manipulation done by the Rust code (the character-replacement
  sanitizer, `split`, `starts_with`, `ends_with`, `strip_suffix`) is embedded
  as structural recursion over `String.data`.
* The command handlers `get_tags`, `update_tag_background_color`,
  `get_resource`, `get_lane_files`, `create_resource`, `update_resource`,
  `delete_resource`, `upload_image`, `update_sort`, `get_sort`, and one tick of
  the polling loop of `start_file_watcher`.

Fallible filesystem primitives return `Except String`, mirroring
`Result<_, String>`; the model's error strings are fixed tags where the Rust
code stringifies OS errors.
-/

/-- JSON values, standing for `serde_json::Value`.  Numbers are modelled as
integers (the only numbers the backend itself produces are filesystem
timestamps, which we model as naturals cast to `Int`).  Objects are
association lists of fields. -/
inductive Json where
  | null : Json
  | bool (b : Bool) : Json
  | num (n : Int) : Json
  | str (s : String) : Json
  | arr (elems : List Json) : Json
  | obj (fields : List (String × Json)) : Json

/-- Field lookup in a JSON object map: `serde_json::Map::get`. -/
def objLookup (k : String) : List (String × Json) → Option Json
  | [] => none
  | (k', v) :: rest => if k' = k then some v else objLookup k rest

/-- Field insertion in a JSON object map: `serde_json::Map::insert`
(overwrites the value of an existing key). -/
def objInsert (k : String) (v : Json) : List (String × Json) → List (String × Json)
  | [] => [(k, v)]
  | (k', v') :: rest => if k' = k then (k, v) :: rest else (k', v') :: objInsert k v rest

/-- Whether a JSON value is an object. -/
def Json.isObjB : Json → Bool
  | .obj _ => true
  | _ => false

/-- State of a JSON map backing file (tags.json or sort.json). -/
inductive MapFile where
  | missing : MapFile
  | malformed : MapFile
  | json (v : Json) : MapFile

/-- The value the Rust code obtains from a map backing file:
`fs::read_to_string(..).map(|c| serde_json::from_str(&c).unwrap_or(empty)).unwrap_or(empty)`.
A missing/unreadable file and malformed JSON both collapse to the empty
object. -/
def loadMap : MapFile → Json
  | .missing => Json.obj []
  | .malformed => Json.obj []
  | .json v => v

/-- Whether an `Except` result is a success. -/
def isOkB {ε α : Type} : Except ε α → Bool
  | .ok _ => true
  | .error _ => false

/-- Command `get_tags` (main.rs:26-39): load tags.json defaulting to an empty
object, then look the path up, defaulting to an empty object.  Always `Ok`. -/
def get_tags (file : MapFile) (path : String) : Except String Json :=
  match loadMap file with
  | Json.obj o => .ok ((objLookup path o).getD (Json.obj []))
  | _ => .ok (Json.obj [])

/-- Command `update_tag_background_color` (main.rs:42-59): load tags.json
defaulting to an empty object, insert the key if the loaded value is an
object (otherwise leave it unchanged), and write the whole value back.
Returns the new state of tags.json; the `create_dir_all`/`write` I/O error
paths are ambient OS failures outside the model. -/
def update_tag_background_color (file : MapFile) (path : String) (colors : Json) : MapFile :=
  let tags := loadMap file
  let tags' := match tags with
    | Json.obj o => Json.obj (objInsert path colors o)
    | other => other
  MapFile.json tags'

/-- Command `get_sort` (main.rs:227-240): same logic as `get_tags` over
sort.json. -/
def get_sort (file : MapFile) (path : String) : Except String Json :=
  match loadMap file with
  | Json.obj o => .ok ((objLookup path o).getD (Json.obj []))
  | _ => .ok (Json.obj [])

/-- Command `update_sort` (main.rs:207-224): same logic as
`update_tag_background_color` over sort.json. -/
def update_sort (file : MapFile) (path : String) (sort_data : Json) : MapFile :=
  let current_sort := loadMap file
  let current_sort' := match current_sort with
    | Json.obj o => Json.obj (objInsert path sort_data o)
    | other => other
  MapFile.json current_sort'

/-! ### String helpers

Core `String` functions are not kernel-reducible, so the string operations the
Rust code uses are embedded as structural recursions over `String.data`. -/

/-- Rust `str::split(sep)` accumulated into a list, over the character list.
`splitCharAux sep cs acc` holds the reversed current chunk in `acc`. -/
def splitCharAux (sep : Char) : List Char → List Char → List (List Char)
  | [], acc => [acc.reverse]
  | c :: cs, acc =>
    if c = sep then acc.reverse :: splitCharAux sep cs []
    else splitCharAux sep cs (c :: acc)

/-- Rust `str::split(sep).collect()`: always yields at least one chunk. -/
def splitChar (sep : Char) (s : String) : List String :=
  (splitCharAux sep s.data []).map (fun cs => ⟨cs⟩)

/-- Whether the first character list is an initial segment of the second. -/
def charsLead : List Char → List Char → Bool
  | [], _ => true
  | _ :: _, [] => false
  | a :: as, b :: bs => if a = b then charsLead as bs else false

/-- Rust `str::starts_with`. -/
def strStartsWith (s pre : String) : Bool := charsLead pre.data s.data

/-- Rust `str::ends_with`. -/
def strEndsWith (s suf : String) : Bool := charsLead suf.data.reverse s.data.reverse

/-- Rust `file_name_str.strip_suffix(".md").unwrap_or(&file_name_str)`
(main.rs:115). -/
def stripDotMd (s : String) : String :=
  if strEndsWith s ".md" then ⟨s.data.dropLast.dropLast.dropLast⟩ else s

/-- The illegal-filename characters replaced by `update_resource`
(main.rs:154). -/
def illegalChars : List Char := ['<', '>', ':', '\"', '/', '\\', '|', '?', '*']

/-- The character replacement of `update_resource` (main.rs:152-155):
`.chars().map(|c| if "<>:\x22/\x5c|?*".contains(c) \x7b ' ' \x7d else \x7b c \x7d).collect()`.
Note that it runs over the whole string, `/` included. -/
def sanitize (s : String) : String :=
  ⟨s.data.map (fun c => if illegalChars.contains c then ' ' else c)⟩

/-! ### Filesystem model -/

/-- A filesystem path, keyed by its `/`-separated segments: how the OS
interprets the path strings built with `format!("\x7b\x7d/\x7b\x7d", ..)`. -/
abbrev FPath := List String

/-- A directory entry: a directory, or a file with content and metadata
timestamps (`modified` / `created`, modelled as naturals). -/
inductive Entry where
  | dir : Entry
  | file (content : String) (modified created : Nat) : Entry
deriving DecidableEq

/-- A filesystem: an association list from segment paths to entries. -/
structure FS where
  entries : List (FPath × Entry)
deriving DecidableEq

/-- The segment path of a path string. -/
def segsOf (s : String) : FPath := splitChar '/' s

/-- Whether the first segment path is an initial segment of the second, i.e.
the second path equals the first or lies below it. -/
def segsLe : FPath → FPath → Bool
  | [], _ => true
  | _ :: _, [] => false
  | a :: as, b :: bs => if a = b then segsLe as bs else false

/-- Look a segment path up in the filesystem. -/
def FS.find (fs : FS) (q : FPath) : Option Entry :=
  (fs.entries.find? (fun e => decide (e.1 = q))).map (fun e => e.2)

/-- Look a path string up in the filesystem: `none` models
`Path::exists() == false`. -/
def FS.lookup (fs : FS) (p : String) : Option Entry := FS.find fs (segsOf p)

/-- All nonempty initial segments of a segment path, shortest first, ending
with the path itself: the directories `fs::create_dir_all` creates in order. -/
def prefixesOf (p : FPath) : List FPath :=
  ((List.range (p.length - 1)).map (fun i => p.take (i + 1))) ++ [p]

/-- Create each of a list of directories in turn, skipping ones that already
exist and failing if one exists as a file. -/
def mkdirs (fs : FS) : List FPath → Except String FS
  | [] => .ok fs
  | q :: rest =>
    match FS.find fs q with
    | none => mkdirs ⟨fs.entries ++ [(q, Entry.dir)]⟩ rest
    | some Entry.dir => mkdirs fs rest
    | some (Entry.file _ _ _) => .error "create_dir_all: NotADirectory"

/-- Model of `fs::create_dir_all`: create the directory and all its parents,
erroring if a component exists as a file. -/
def FS.create_dir_all (fs : FS) (p : FPath) : Except String FS :=
  mkdirs fs (prefixesOf p)

/-- Model of `fs::rename`: fails if the source does not exist, otherwise moves
the source entry and (for a directory) its whole subtree to the target path.
POSIX overwrite of an existing target is modelled by dropping the target
subtree first. -/
def FS.rename (fs : FS) (src dst : String) : Except String FS :=
  let s := segsOf src
  let d := segsOf dst
  if FS.find fs s = none then .error "rename: NotFound"
  else
    .ok ⟨(fs.entries.filter (fun e => !segsLe d e.1)).map
      (fun e => if segsLe s e.1 then (d ++ e.1.drop s.length, e.2) else e)⟩

/-- Model of `fs::remove_dir_all`: remove the directory and its whole subtree;
fails if the path is not a directory. -/
def FS.remove_dir_all (fs : FS) (p : String) : Except String FS :=
  if FS.find fs (segsOf p) = some Entry.dir then
    .ok ⟨fs.entries.filter (fun e => !segsLe (segsOf p) e.1)⟩
  else .error "remove_dir_all: NotFound"

/-- Model of `fs::remove_file`: remove a single file; fails if the path is
missing or a directory. -/
def FS.remove_file (fs : FS) (p : String) : Except String FS :=
  match FS.find fs (segsOf p) with
  | some (Entry.file _ _ _) => .ok ⟨fs.entries.filter (fun e => !decide (e.1 = segsOf p))⟩
  | _ => .error "remove_file: NotFound"

/-- Model of `fs::write` at time `now`: overwrite an existing file's content
(updating its modified time, keeping its creation time), or create a fresh
file when the parent directory exists; fails on a directory or a missing
parent. -/
def FS.write (fs : FS) (p content : String) (now : Nat) : Except String FS :=
  match FS.find fs (segsOf p) with
  | some Entry.dir => .error "write: IsADirectory"
  | some (Entry.file _ _ created) =>
    .ok ⟨fs.entries.map (fun e =>
      if decide (e.1 = segsOf p) then (e.1, Entry.file content now created) else e)⟩
  | none =>
    let par := (segsOf p).dropLast
    if par = [] ∨ FS.find fs par = some Entry.dir then
      .ok ⟨fs.entries ++ [(segsOf p, Entry.file content now now)]⟩
    else .error "write: NotFound"

/-- Model of `fs::read_dir`: the direct children (name and entry) of a
directory, in entry-list order; fails unless the path is a directory. -/
def FS.read_dir (fs : FS) (p : String) : Except String (List (String × Entry)) :=
  let base := segsOf p
  if FS.find fs base = some Entry.dir then
    .ok (fs.entries.filterMap (fun e =>
      if segsLe base e.1 && (e.1.length == base.length + 1)
      then some ((e.1.drop base.length).headD "", e.2) else none))
  else .error "read_dir: NotFound"

/-! ### Resource commands -/

/-- The JSON produced for one card by `get_lane_files` (main.rs:117-122). -/
def cardJson (name content : String) (modified created : Nat) : Json :=
  Json.obj [("name", Json.str name), ("content", Json.str content),
            ("lastUpdated", Json.num (Int.ofNat modified)),
            ("createdAt", Json.num (Int.ofNat created))]

/-- The loop body of `get_lane_files` (main.rs:104-125) over the enumerated
children: keep visible `.md` entries, reading each one's content and metadata
(reading a directory named `*.md` fails, as `fs::read_to_string` would). -/
def laneFilesOf : List (String × Entry) → Except String (List Json)
  | [] => .ok []
  | (name, ent) :: rest =>
    if strEndsWith name ".md" && !strStartsWith name "." then
      match ent with
      | Entry.dir => .error "read_to_string: IsADirectory"
      | Entry.file content modified created =>
        match laneFilesOf rest with
        | .error e => .error e
        | .ok files => .ok (cardJson (stripDotMd name) content modified created :: files)
    else laneFilesOf rest

/-- Helper `get_lane_files` (main.rs:100-128): enumerate a lane directory and
collect its visible markdown cards. -/
def get_lane_files (fs : FS) (lane_path : String) : Except String (List Json) :=
  match FS.read_dir fs lane_path with
  | .error e => .error e
  | .ok children => laneFilesOf children

/-- The loop body of `get_resource` (main.rs:80-95) over the enumerated
children of the board directory: each visible subdirectory becomes a lane
with its card files. -/
def lanesOf (fs : FS) (full_path : String) : List (String × Entry) → Except String (List Json)
  | [] => .ok []
  | (name, ent) :: rest =>
    match ent with
    | Entry.dir =>
      if !strStartsWith name "." then
        match get_lane_files fs (full_path ++ "/" ++ name) with
        | .error e => .error e
        | .ok files =>
          match lanesOf fs full_path rest with
          | .error e => .error e
          | .ok lanes => .ok (Json.obj [("name", Json.str name), ("files", Json.arr files)] :: lanes)
      else lanesOf fs full_path rest
    | Entry.file _ _ _ => lanesOf fs full_path rest

/-- Command `get_resource` (main.rs:67-98): if the board path does not exist,
create it (with parents) and return an empty array; otherwise enumerate its
visible subdirectories as lanes.  Returns the (possibly extended) filesystem
together with the JSON result. -/
def get_resource (fs : FS) (tasks_dir path : String) : Except String (FS × Json) :=
  let full_path := tasks_dir ++ "/" ++ path
  if FS.find fs (segsOf full_path) = none then
    match FS.create_dir_all fs (segsOf full_path) with
    | .error e => .error e
    | .ok fs1 => .ok (fs1, Json.arr [])
  else
    match FS.read_dir fs full_path with
    | .error e => .error e
    | .ok children =>
      match lanesOf fs full_path children with
      | .error e => .error e
      | .ok lanes => .ok (fs, Json.arr lanes)

/-- Command `create_resource` (main.rs:130-145) at time `now`: for a file,
create the parent directories and write the content (default empty); otherwise
create the directory itself. -/
def create_resource (fs : FS) (tasks_dir path : String) (is_file : Option Bool)
    (content : Option String) (now : Nat) : Except String FS :=
  let full_path := tasks_dir ++ "/" ++ path
  if is_file.getD false then
    match FS.create_dir_all fs ((segsOf full_path).dropLast) with
    | .error e => .error e
    | .ok fs1 => FS.write fs1 full_path (content.getD "") now
  else FS.create_dir_all fs (segsOf full_path)

/-- Command `update_resource` (main.rs:148-174) at time `now`: sanitize the
requested new path (defaulting to the old path), move the entry when the full
paths differ (creating the target's parents first), then, when content is
supplied and the target is a regular file, overwrite its content.
`Path::parent` is the segment path without its last component; its `None`
and root cases make `create_dir_all` a no-op, as in the Rust code. -/
def update_resource (fs : FS) (tasks_dir path : String) (new_path content : Option String)
    (now : Nat) : Except String FS :=
  let old_full_path := tasks_dir ++ "/" ++ path
  let new_path_clean := sanitize (new_path.getD path)
  let new_full_path := tasks_dir ++ "/" ++ new_path_clean
  let afterMove : Except String FS :=
    if old_full_path ≠ new_full_path then
      match FS.create_dir_all fs ((segsOf new_full_path).dropLast) with
      | .error e => .error e
      | .ok fs1 => FS.rename fs1 old_full_path new_full_path
    else .ok fs
  match afterMove with
  | .error e => .error e
  | .ok fs2 =>
    match content with
    | some new_content =>
      match FS.find fs2 (segsOf new_full_path) with
      | none => .error "metadata: NotFound"
      | some Entry.dir => .ok fs2
      | some (Entry.file _ _ _) => FS.write fs2 new_full_path new_content now
    | none => .ok fs2

/-- Command `delete_resource` (main.rs:177-188): remove a directory
recursively if the target is a directory, else remove the single file. -/
def delete_resource (fs : FS) (tasks_dir path : String) : Except String FS :=
  let full_path := tasks_dir ++ "/" ++ path
  if FS.find fs (segsOf full_path) = some Entry.dir then
    FS.remove_dir_all fs full_path
  else
    FS.remove_file fs full_path

/-- Command `upload_image` (main.rs:191-204): the stored filename,
`format!("\x7b\x7d.\x7b\x7d", Uuid::new_v4(), extension)` with
`extension = filename.split('.').last().unwrap_or("png")`.  The fresh UUID is
an external input; the byte write to `<config_dir>/images/` stores the given
bytes under this name unchanged. -/
def upload_image (uuid filename : String) : String :=
  let extension := ((splitChar '.' filename).getLast?).getD "png"
  uuid ++ "." ++ extension

/-! ### File watcher -/

/-- Lookup in the watcher's in-memory `HashMap` of last-modified times. -/
def lookupA (m : List (String × Nat)) (p : String) : Option Nat :=
  (m.find? (fun e => decide (e.1 = p))).map (fun e => e.2)

/-- `HashMap::insert`: overwrite the existing binding or add a new one. -/
def insertA (m : List (String × Nat)) (p : String) (t : Nat) : List (String × Nat) :=
  match m with
  | [] => [(p, t)]
  | e :: rest => if e.1 = p then (p, t) :: rest else e :: insertA rest p t

/-- The emission guard of the watcher loop (main.rs:267-271): emit only when a
previous timestamp was recorded and the current one differs. -/
def emitCond : Option Nat → Nat → Bool
  | some lm, m => m != lm
  | none, _ => false

/-- One tick of the polling loop of `start_file_watcher` (main.rs:260-276):
process the observed direct children (path string and modified time) in
order; for each, emit "files-changed" iff `emitCond` holds of the recorded
time, then record the current time.  Returns the emitting children in order
and the updated map. -/
def watchTick : List (String × Nat) → List (String × Nat) → List String × List (String × Nat)
  | last, [] => ([], last)
  | last, (p, m) :: rest =>
    let emitted := if emitCond (lookupA last p) m then [p] else []
    let next := watchTick (insertA last p m) rest
    (emitted ++ next.1, next.2)

/-! ### Concrete fixtures used by the claim theorems and witnesses -/

/-- A tasks tree holding the single card `a/b/c.md` with content "x". -/
def fsAB : FS := ⟨[(["tasks"], Entry.dir), (["tasks", "a"], Entry.dir),
  (["tasks", "a", "b"], Entry.dir), (["tasks", "a", "b", "c.md"], Entry.file "x" 0 0)]⟩

/-- `fsAB` after `update_resource "a/b/c.md" (some "a/b/c?.md") none`: the
sanitizer also replaced the `/` separators, so the file sits directly under
the tasks root as `a b c .md`. -/
def fsAB1 : FS := ⟨[(["tasks"], Entry.dir), (["tasks", "a"], Entry.dir),
  (["tasks", "a", "b"], Entry.dir), (["tasks", "a b c .md"], Entry.file "x" 0 0)]⟩

/-- `fsAB` after `update_resource "a/b/c.md" none (some "new")` at time 7: the
defaulted new path is sanitized too, so the file was moved to the tasks root
as `a b c.md` before its content was overwritten. -/
def fsAB2 : FS := ⟨[(["tasks"], Entry.dir), (["tasks", "a"], Entry.dir),
  (["tasks", "a", "b"], Entry.dir), (["tasks", "a b c.md"], Entry.file "new" 7 0)]⟩

/-- A tasks tree holding the single file `c.md`. -/
def fsDel : FS := ⟨[(["tasks"], Entry.dir), (["tasks", "c.md"], Entry.file "x" 1 2)]⟩

/-- The tree `get_resource` auto-provisions for board `b` from an empty
filesystem. -/
def fsProv : FS := ⟨[(["tasks"], Entry.dir), (["tasks", "b"], Entry.dir)]⟩

/-! ### Map-store lemmas -/

theorem objLookup_objInsert_self (k : String) (v : Json) :
    ∀ o : List (String × Json), objLookup k (objInsert k v o) = some v
  | [] => by simp [objInsert, objLookup]
  | (k', v') :: rest => by
    by_cases h : k' = k
    · simp [objInsert, h, objLookup]
    · simp [objInsert, h, objLookup, objLookup_objInsert_self k v rest]

theorem objLookup_objInsert_ne (k k' : String) (v : Json) (h : k' ≠ k) :
    ∀ o : List (String × Json), objLookup k' (objInsert k v o) = objLookup k' o
  | [] => by simp [objInsert, objLookup, Ne.symm h]
  | (a, b) :: rest => by
    by_cases ha : a = k
    · subst ha
      simp [objInsert, objLookup, Ne.symm h]
    · by_cases ha' : a = k'
      · simp [objInsert, objLookup, ha, ha', h]
      · simp [objInsert, ha, objLookup, ha', objLookup_objInsert_ne k k' v h rest]

/-! ### Claim theorems: map stores and image store -/

/-- C4: `get_tags` and `get_sort` never fail; a missing, unreadable, or
malformed backing file behaves as the empty object, and an absent key yields
an empty object. -/
theorem mapstore_get_never_fails (tf sf : MapFile) (k : String) :
    isOkB (get_tags tf k) = true ∧
    isOkB (get_sort sf k) = true ∧
    ((tf = MapFile.missing ∨ tf = MapFile.malformed) → get_tags tf k = .ok (Json.obj [])) ∧
    (∀ o, loadMap tf = Json.obj o → objLookup k o = none → get_tags tf k = .ok (Json.obj [])) ∧
    ((sf = MapFile.missing ∨ sf = MapFile.malformed) → get_sort sf k = .ok (Json.obj [])) ∧
    (∀ o, loadMap sf = Json.obj o → objLookup k o = none → get_sort sf k = .ok (Json.obj [])) := by
  refine ⟨?_, ?_, ?_, ?_, ?_, ?_⟩
  · cases tf with
    | missing => rfl
    | malformed => rfl
    | json v => cases v <;> simp [get_tags, loadMap, isOkB]
  · cases sf with
    | missing => rfl
    | malformed => rfl
    | json v => cases v <;> simp [get_sort, loadMap, isOkB]
  · rintro (rfl | rfl) <;> rfl
  · intro o ho hnone
    simp [get_tags, ho, hnone]
  · rintro (rfl | rfl) <;> rfl
  · intro o ho hnone
    simp [get_sort, ho, hnone]

/-- Witness for C4 at a malformed tags file and a missing sort file. -/
theorem mapstore_get_never_fails_witness :
    get_tags MapFile.malformed "boards/b" = .ok (Json.obj []) :=
  (mapstore_get_never_fails MapFile.malformed MapFile.missing "boards/b").2.2.1 (Or.inr rfl)

theorem update_tag_background_color_obj (tf : MapFile) (ot : List (String × Json))
    (ht : loadMap tf = Json.obj ot) (p : String) (v : Json) :
    update_tag_background_color tf p v = MapFile.json (Json.obj (objInsert p v ot)) := by
  unfold update_tag_background_color
  rw [ht]

theorem update_sort_obj (sf : MapFile) (os : List (String × Json))
    (hs : loadMap sf = Json.obj os) (p : String) (w : Json) :
    update_sort sf p w = MapFile.json (Json.obj (objInsert p w os)) := by
  unfold update_sort
  rw [hs]

theorem get_tags_of_load (tf : MapFile) (ot : List (String × Json))
    (ht : loadMap tf = Json.obj ot) (k : String) :
    get_tags tf k = .ok ((objLookup k ot).getD (Json.obj [])) := by
  unfold get_tags
  rw [ht]

theorem get_sort_of_load (sf : MapFile) (os : List (String × Json))
    (hs : loadMap sf = Json.obj os) (k : String) :
    get_sort sf k = .ok ((objLookup k os).getD (Json.obj [])) := by
  unfold get_sort
  rw [hs]

/-- C5 (amended): provided the loaded backing value is a JSON object (which
covers a missing or malformed file, both loaded as the empty object), a
successful `update_tag_background_color(P, V)` followed by `get_tags(P)`
returns exactly V, and every other key's value is unchanged; likewise for
`update_sort`/`get_sort`.  The proviso is forced: a backing file holding
valid non-object JSON makes the update a silent no-op (see the
counterexample and C9). -/
theorem mapstore_roundtrip (tf sf : MapFile) (ot os : List (String × Json))
    (ht : loadMap tf = Json.obj ot) (hs : loadMap sf = Json.obj os)
    (p k : String) (v w : Json) (hk : k ≠ p) :
    get_tags (update_tag_background_color tf p v) p = .ok v ∧
    get_tags (update_tag_background_color tf p v) k = get_tags tf k ∧
    get_sort (update_sort sf p w) p = .ok w ∧
    get_sort (update_sort sf p w) k = get_sort sf k := by
  refine ⟨?_, ?_, ?_, ?_⟩
  · rw [update_tag_background_color_obj tf ot ht p v,
      get_tags_of_load (MapFile.json (Json.obj (objInsert p v ot))) (objInsert p v ot) rfl p,
      objLookup_objInsert_self p v ot]
    rfl
  · rw [update_tag_background_color_obj tf ot ht p v,
      get_tags_of_load (MapFile.json (Json.obj (objInsert p v ot))) (objInsert p v ot) rfl k,
      get_tags_of_load tf ot ht k, objLookup_objInsert_ne p k v hk ot]
  · rw [update_sort_obj sf os hs p w,
      get_sort_of_load (MapFile.json (Json.obj (objInsert p w os))) (objInsert p w os) rfl p,
      objLookup_objInsert_self p w os]
    rfl
  · rw [update_sort_obj sf os hs p w,
      get_sort_of_load (MapFile.json (Json.obj (objInsert p w os))) (objInsert p w os) rfl k,
      get_sort_of_load sf os hs k, objLookup_objInsert_ne p k w hk os]

/-- Counterexample to C5 as stated: with tags.json holding the valid
non-object JSON value `"weird"`, the update succeeds but the following get
does not return the stored value. -/
theorem mapstore_roundtrip_cex :
    get_tags (update_tag_background_color (MapFile.json (Json.str "weird")) "a/b" (Json.num 1))
      "a/b" ≠ .ok (Json.num 1) := by
  intro h
  exact Json.noConfusion (Except.ok.inj h)

/-- Witness for C5 (amended) at a missing tags file and a missing sort file. -/
theorem mapstore_roundtrip_witness :
    get_tags (update_tag_background_color MapFile.missing "a/b" (Json.num 3)) "a/b" =
      .ok (Json.num 3) ∧
    get_sort (update_sort MapFile.missing "a/b" (Json.num 4)) "c" = get_sort MapFile.missing "c" := by
  have h := mapstore_roundtrip MapFile.missing MapFile.missing [] [] rfl rfl "a/b" "c"
    (Json.num 3) (Json.num 4) (by decide)
  exact ⟨h.1, h.2.2.2⟩

/-- C9: when the backing file holds valid JSON that is not an object, the
mutating update leaves the file's value unchanged (it is rewritten with the
original non-object value) and a subsequent get for the key returns an empty
object; both update commands still succeed (they are total here, the only
failure paths in the Rust code being OS-level I/O errors). -/
theorem mapstore_nonobject_update (v : Json) (h : Json.isObjB v = false)
    (p : String) (tval sval : Json) :
    update_tag_background_color (MapFile.json v) p tval = MapFile.json v ∧
    get_tags (update_tag_background_color (MapFile.json v) p tval) p = .ok (Json.obj []) ∧
    update_sort (MapFile.json v) p sval = MapFile.json v ∧
    get_sort (update_sort (MapFile.json v) p sval) p = .ok (Json.obj []) := by
  cases v with
  | obj o => simp [Json.isObjB] at h
  | null => exact ⟨rfl, rfl, rfl, rfl⟩
  | bool b => exact ⟨rfl, rfl, rfl, rfl⟩
  | num n => exact ⟨rfl, rfl, rfl, rfl⟩
  | str s => exact ⟨rfl, rfl, rfl, rfl⟩
  | arr elems => exact ⟨rfl, rfl, rfl, rfl⟩

/-- Witness for C9 at the non-object array value `[]`. -/
theorem mapstore_nonobject_update_witness :
    update_tag_background_color (MapFile.json (Json.arr [])) "p" (Json.num 5) =
      MapFile.json (Json.arr []) ∧
    get_tags (update_tag_background_color (MapFile.json (Json.arr [])) "p" (Json.num 5)) "p" =
      .ok (Json.obj []) := by
  have h := mapstore_nonobject_update (Json.arr []) rfl "p" (Json.num 5) (Json.num 6)
  exact ⟨h.1, h.2.1⟩

/-- C3 (failing input): for the dot-free filename "image", `upload_image`
stores under extension "image", not the claimed default "png" —
`split('.').last()` always returns a chunk, so `unwrap_or("png")` is dead
code. -/
theorem upload_image_no_dot_extension :
    upload_image "u" "image" = "u.image" ∧ upload_image "u" "image" ≠ "u.png" := by
  exact ⟨rfl, by decide⟩

/-! ### Claim theorems: update_resource -/

/-- C1 (failing input): renaming `a/b/c.md` to `a/b/c?.md` does not produce
`a/b/c .md`; the sanitizer replaces every illegal character in the whole new
path, `/` included, so the file ends up at `a b c .md` directly under the
tasks root and the claimed target does not exist. -/
theorem update_resource_sanitizes_separators :
    update_resource fsAB "tasks" "a/b/c.md" (some "a/b/c?.md") none 0 = .ok fsAB1 ∧
    sanitize "a/b/c?.md" = "a b c .md" ∧
    FS.lookup fsAB1 "tasks/a/b/c .md" = none ∧
    FS.lookup fsAB1 "tasks/a b c .md" = some (Entry.file "x" 0 0) ∧
    FS.lookup fsAB1 "tasks/a/b/c.md" = none :=
  ⟨rfl, rfl, rfl, rfl, rfl⟩

/-- C2 (failing input): `update_resource` on `a/b/c.md` with `newPath` absent
and content "new" is not a content-only update: the defaulted path is
sanitized, its `/` separators become spaces, and the file is moved to
`a b c.md` under the tasks root (where the content is then written); nothing
remains at the original path. -/
theorem update_resource_content_update_moves :
    update_resource fsAB "tasks" "a/b/c.md" none (some "new") 7 = .ok fsAB2 ∧
    FS.lookup fsAB2 "tasks/a/b/c.md" = none ∧
    FS.lookup fsAB2 "tasks/a b c.md" = some (Entry.file "new" 7 0) :=
  ⟨rfl, rfl, rfl⟩

/-- C10: when the sanitized target equals the source path and no content is
supplied, `update_resource` succeeds and leaves the filesystem untouched,
even on a filesystem where nothing exists at the source path. -/
theorem update_resource_clean_noop (fs : FS) (tasks_dir path : String)
    (new_path : Option String) (now : Nat)
    (h : sanitize (new_path.getD path) = path) :
    update_resource fs tasks_dir path new_path none now = .ok fs := by
  simp [update_resource, h]

/-- Witness for C10 on the empty filesystem (nothing exists at the source). -/
theorem update_resource_clean_noop_witness :
    update_resource (⟨[]⟩ : FS) "tasks" "a.md" none none 0 = .ok (⟨[]⟩ : FS) :=
  update_resource_clean_noop ⟨[]⟩ "tasks" "a.md" none 0 rfl

/-! ### Watcher lemmas -/

theorem lookupA_nil (p : String) : lookupA [] p = none := rfl

theorem lookupA_cons (e : String × Nat) (l : List (String × Nat)) (p : String) :
    lookupA (e :: l) p = if e.1 = p then some e.2 else lookupA l p := by
  by_cases h : e.1 = p <;> simp [lookupA, List.find?_cons, h]

theorem lookupA_insertA_self (p : String) (t : Nat) :
    ∀ m : List (String × Nat), lookupA (insertA m p t) p = some t
  | [] => by simp [insertA, lookupA_cons]
  | e :: rest => by
    by_cases h : e.1 = p
    · simp [insertA, h, lookupA_cons]
    · simp [insertA, h, lookupA_cons, lookupA_insertA_self p t rest]

theorem lookupA_insertA_ne (p x : String) (t : Nat) (hx : x ≠ p) :
    ∀ m : List (String × Nat), lookupA (insertA m p t) x = lookupA m x
  | [] => by simp [insertA, lookupA_cons, lookupA_nil, Ne.symm hx]
  | e :: rest => by
    by_cases h : e.1 = p
    · simp [insertA, h, lookupA_cons, Ne.symm hx]
    · by_cases hex : e.1 = x
      · simp [insertA, h, lookupA_cons, hex, hx]
      · simp [insertA, h, lookupA_cons, hex, lookupA_insertA_ne p x t hx rest]

theorem watchTick_emit_subset (x : String) :
    ∀ (entries last : List (String × Nat)),
      x ∈ (watchTick last entries).1 → x ∈ entries.map Prod.fst
  | [], _, h => by simp [watchTick] at h
  | (p, m) :: rest, last, h => by
    simp only [watchTick] at h
    rcases List.mem_append.mp h with h1 | h2
    · by_cases hc : emitCond (lookupA last p) m = true
      · simp [hc] at h1
        simp [h1]
      · simp [hc] at h1
    · have := watchTick_emit_subset x rest (insertA last p m) h2
      simp [this]

theorem watchTick_keeps (x : String) :
    ∀ (entries last : List (String × Nat)), x ∉ entries.map Prod.fst →
      lookupA (watchTick last entries).2 x = lookupA last x
  | [], _, _ => rfl
  | (p, m) :: rest, last, h => by
    simp only [List.map_cons, List.mem_cons, not_or] at h
    simp only [watchTick]
    rw [watchTick_keeps x rest (insertA last p m) h.2]
    exact lookupA_insertA_ne p x m h.1 last

/-- C7: in one watcher tick over the observed direct children (with their
distinct path strings and modified times), a files-changed notification is
emitted for a child iff a previous tick recorded that child with a different
timestamp (`emitCond`); in particular a first-seen child (no recorded value)
never triggers an emission; and the recorded timestamp after the tick equals
the observed one for every observed child, emission or not. -/
theorem watcher_tick_spec (p : String) (m : Nat) :
    ∀ (entries last : List (String × Nat)),
      (entries.map Prod.fst).Nodup → (p, m) ∈ entries →
      (p ∈ (watchTick last entries).1 ↔ emitCond (lookupA last p) m = true) ∧
      lookupA (watchTick last entries).2 p = some m
  | [], _, _, hmem => absurd hmem (List.not_mem_nil _)
  | (q, t) :: rest, last, hnd, hmem => by
    rw [List.map_cons] at hnd
    have hnd' := List.nodup_cons.mp hnd
    rcases List.mem_cons.mp hmem with heq | hmem'
    · injection heq with h1 h2
      subst h1
      subst h2
      simp only [watchTick]
      have hnotin : p ∉ (watchTick (insertA last p m) rest).1 := fun hin =>
        hnd'.1 (watchTick_emit_subset p rest (insertA last p m) hin)
      constructor
      · constructor
        · intro hmemb
          rcases List.mem_append.mp hmemb with h1 | h2
          · by_cases hc : emitCond (lookupA last p) m = true
            · exact hc
            · simp [hc] at h1
          · exact absurd h2 hnotin
        · intro hc
          exact List.mem_append_left _ (by simp [hc])
      · rw [watchTick_keeps p rest (insertA last p m) hnd'.1]
        exact lookupA_insertA_self p m last
    · have hpfst : p ∈ rest.map Prod.fst := List.mem_map.mpr ⟨(p, m), hmem', rfl⟩
      have hpq : p ≠ q := fun hh => hnd'.1 (hh ▸ hpfst)
      have ih := watcher_tick_spec p m rest (insertA last q t) hnd'.2 hmem'
      simp only [watchTick]
      constructor
      · rw [List.mem_append]
        have hnotif : p ∉ (if emitCond (lookupA last q) t = true then [q] else []) := by
          by_cases hc : emitCond (lookupA last q) t = true <;> simp [hc, hpq]
        constructor
        · intro hmemb
          rcases hmemb with h1 | h2
          · exact absurd h1 hnotif
          · rw [← lookupA_insertA_ne q p t hpq last]
            exact ih.1.mp h2
        · intro hc
          refine Or.inr (ih.1.mpr ?_)
          rw [lookupA_insertA_ne q p t hpq last]
          exact hc
      · exact ih.2

/-- Witness for C7: with recorded map `[("a", 1)]` and observed children
`[("a", 2), ("b", 5)]`, child "a" emits (changed timestamp) and its recorded
time is updated. -/
theorem watcher_tick_spec_witness :
    ("a" ∈ (watchTick [("a", 1)] [("a", 2), ("b", 5)]).1 ↔
      emitCond (lookupA [("a", 1)] "a") 2 = true) ∧
    lookupA (watchTick [("a", 1)] [("a", 2), ("b", 5)]).2 "a" = some 2 :=
  watcher_tick_spec "a" 2 [("a", 2), ("b", 5)] [("a", 1)] (by decide) (by decide)

/-! ### Filesystem lemmas -/

theorem segsLe_refl : ∀ p : FPath, segsLe p p = true
  | [] => rfl
  | a :: as => by simp [segsLe, segsLe_refl as]

theorem find_filter_none {α : Type} (pred keep : α → Bool)
    (h : ∀ a, pred a = true → keep a = false) :
    ∀ l : List α, (l.filter keep).find? pred = none
  | [] => rfl
  | a :: l => by
    by_cases hk : keep a = true
    · have hp : pred a = false := by
        cases hpa : pred a
        · rfl
        · rw [h a hpa] at hk
          exact absurd hk (by simp)
      simp [List.filter_cons, hk, List.find?_cons, hp, find_filter_none pred keep h l]
    · rw [Bool.not_eq_true] at hk
      simp [List.filter_cons, hk, find_filter_none pred keep h l]

theorem find_filter_eq {α : Type} (pred keep : α → Bool)
    (h : ∀ a, pred a = true → keep a = true) :
    ∀ l : List α, (l.filter keep).find? pred = l.find? pred
  | [] => rfl
  | a :: l => by
    by_cases hp : pred a = true
    · simp [List.filter_cons, h a hp, List.find?_cons, hp]
    · rw [Bool.not_eq_true] at hp
      by_cases hk : keep a = true
      · simp [List.filter_cons, hk, List.find?_cons, hp, find_filter_eq pred keep h l]
      · rw [Bool.not_eq_true] at hk
        simp [List.filter_cons, hk, List.find?_cons, hp, find_filter_eq pred keep h l]

/-- C8: `delete_resource` removes a directory together with everything below
it, removes a plain file alone (all other paths keeping their entries in
either case), and fails with a not-found error when nothing exists at the
path. -/
theorem delete_resource_spec (fs : FS) (tasks_dir path : String) :
    (FS.find fs (segsOf (tasks_dir ++ "/" ++ path)) = some Entry.dir →
      delete_resource fs tasks_dir path =
        .ok ⟨fs.entries.filter (fun e => !segsLe (segsOf (tasks_dir ++ "/" ++ path)) e.1)⟩ ∧
      (∀ q : String, segsLe (segsOf (tasks_dir ++ "/" ++ path)) (segsOf q) = true →
        FS.lookup ⟨fs.entries.filter
          (fun e => !segsLe (segsOf (tasks_dir ++ "/" ++ path)) e.1)⟩ q = none) ∧
      (∀ q : String, segsLe (segsOf (tasks_dir ++ "/" ++ path)) (segsOf q) = false →
        FS.lookup ⟨fs.entries.filter
          (fun e => !segsLe (segsOf (tasks_dir ++ "/" ++ path)) e.1)⟩ q = FS.lookup fs q)) ∧
    (∀ c m cr, FS.find fs (segsOf (tasks_dir ++ "/" ++ path)) = some (Entry.file c m cr) →
      delete_resource fs tasks_dir path =
        .ok ⟨fs.entries.filter (fun e => !decide (e.1 = segsOf (tasks_dir ++ "/" ++ path)))⟩ ∧
      FS.lookup ⟨fs.entries.filter
        (fun e => !decide (e.1 = segsOf (tasks_dir ++ "/" ++ path)))⟩
        (tasks_dir ++ "/" ++ path) = none ∧
      (∀ q : String, segsOf q ≠ segsOf (tasks_dir ++ "/" ++ path) →
        FS.lookup ⟨fs.entries.filter
          (fun e => !decide (e.1 = segsOf (tasks_dir ++ "/" ++ path)))⟩ q = FS.lookup fs q)) ∧
    (FS.find fs (segsOf (tasks_dir ++ "/" ++ path)) = none →
      delete_resource fs tasks_dir path = .error "remove_file: NotFound") := by
  refine ⟨?_, ?_, ?_⟩
  · intro hdir
    refine ⟨by simp [delete_resource, hdir, FS.remove_dir_all], ?_, ?_⟩
    · intro q hq
      unfold FS.lookup FS.find
      rw [find_filter_none]
      · rfl
      · intro a ha
        have ha' : a.1 = segsOf q := of_decide_eq_true ha
        rw [ha', hq]
        rfl
    · intro q hq
      unfold FS.lookup FS.find
      rw [find_filter_eq]
      intro a ha
      have ha' : a.1 = segsOf q := of_decide_eq_true ha
      rw [ha', hq]
      rfl
  · intro c m cr hfile
    refine ⟨by simp [delete_resource, hfile, FS.remove_file], ?_, ?_⟩
    · unfold FS.lookup FS.find
      rw [find_filter_none]
      · rfl
      · intro a ha
        rw [ha]
        rfl
    · intro q hq
      unfold FS.lookup FS.find
      rw [find_filter_eq]
      intro a ha
      have ha' : a.1 = segsOf q := of_decide_eq_true ha
      rw [ha']
      simp [hq]
  · intro hnone
    simp [delete_resource, hnone, FS.remove_file]

/-- Witness for C8: deleting the single file `c.md` from `fsDel` removes
exactly that entry. -/
theorem delete_resource_spec_witness :
    delete_resource fsDel "tasks" "c.md" = .ok ⟨[(["tasks"], Entry.dir)]⟩ := by
  rw [((delete_resource_spec fsDel "tasks" "c.md").2.1 "x" 1 2 rfl).1]
  rfl

/-! ### create_dir_all lemmas -/

theorem FS_find_extend (fs : FS) (x : FPath × Entry) (q : FPath) (v : Entry)
    (h : FS.find fs q = some v) : FS.find ⟨fs.entries ++ [x]⟩ q = some v := by
  unfold FS.find at h ⊢
  cases hf : fs.entries.find? (fun e => decide (e.1 = q)) with
  | none =>
    rw [hf] at h
    exact absurd h (by simp)
  | some e =>
    rw [hf] at h
    rw [List.find?_append, hf]
    exact h

theorem FS_find_extend_none (fs : FS) (q : FPath)
    (h : FS.find fs q = none) : FS.find ⟨fs.entries ++ [(q, Entry.dir)]⟩ q = some Entry.dir := by
  unfold FS.find at h ⊢
  cases hf : fs.entries.find? (fun e => decide (e.1 = q)) with
  | some e =>
    rw [hf] at h
    exact absurd h (by simp)
  | none =>
    rw [List.find?_append, hf]
    simp [List.find?_cons]

theorem mkdirs_preserves :
    ∀ (l : List FPath) (fs fs' : FS), mkdirs fs l = .ok fs' →
      ∀ (q : FPath) (v : Entry), FS.find fs q = some v → FS.find fs' q = some v
  | [], fs, fs', h, q, v, hv => by
    simp only [mkdirs, Except.ok.injEq] at h
    rw [← h]
    exact hv
  | r :: rest, fs, fs', h, q, v, hv => by
    simp only [mkdirs] at h
    cases hfr : FS.find fs r with
    | none =>
      rw [hfr] at h
      exact mkdirs_preserves rest _ fs' h q v (FS_find_extend fs (r, Entry.dir) q v hv)
    | some ent =>
      cases ent with
      | dir =>
        rw [hfr] at h
        exact mkdirs_preserves rest fs fs' h q v hv
      | file c m cr =>
        rw [hfr] at h
        exact absurd h (by simp)

theorem mkdirs_mkdir :
    ∀ (l : List FPath) (fs fs' : FS), mkdirs fs l = .ok fs' →
      ∀ q ∈ l, FS.find fs' q = some Entry.dir
  | [], _, _, _, q, hq => absurd hq (List.not_mem_nil q)
  | r :: rest, fs, fs', h, q, hq => by
    simp only [mkdirs] at h
    cases hfr : FS.find fs r with
    | none =>
      rw [hfr] at h
      rcases List.mem_cons.mp hq with rfl | hq'
      · exact mkdirs_preserves rest _ fs' h q Entry.dir (FS_find_extend_none fs q hfr)
      · exact mkdirs_mkdir rest _ fs' h q hq'
    | some ent =>
      cases ent with
      | dir =>
        rw [hfr] at h
        rcases List.mem_cons.mp hq with rfl | hq'
        · exact mkdirs_preserves rest fs fs' h q Entry.dir hfr
        · exact mkdirs_mkdir rest fs fs' h q hq'
      | file c m cr =>
        rw [hfr] at h
        exact absurd h (by simp)

theorem mkdirs_entries_sub :
    ∀ (l : List FPath) (fs fs' : FS), mkdirs fs l = .ok fs' →
      ∀ e ∈ fs'.entries, e ∈ fs.entries ∨ (e.1 ∈ l ∧ e.2 = Entry.dir)
  | [], fs, fs', h, e, he => by
    simp only [mkdirs, Except.ok.injEq] at h
    rw [← h] at he
    exact Or.inl he
  | r :: rest, fs, fs', h, e, he => by
    simp only [mkdirs] at h
    cases hfr : FS.find fs r with
    | none =>
      rw [hfr] at h
      rcases mkdirs_entries_sub rest _ fs' h e he with h1 | h2
      · rcases List.mem_append.mp h1 with h3 | h4
        · exact Or.inl h3
        · have h5 : e = (r, Entry.dir) := List.mem_singleton.mp h4
          subst h5
          exact Or.inr ⟨List.mem_cons_self r rest, rfl⟩
      · exact Or.inr ⟨List.mem_cons_of_mem r h2.1, h2.2⟩
    | some ent =>
      cases ent with
      | dir =>
        rw [hfr] at h
        rcases mkdirs_entries_sub rest fs fs' h e he with h1 | h2
        · exact Or.inl h1
        · exact Or.inr ⟨List.mem_cons_of_mem r h2.1, h2.2⟩
      | file c m cr =>
        rw [hfr] at h
        exact absurd h (by simp)

theorem prefixesOf_length_le (p q : FPath) (hq : q ∈ prefixesOf p) :
    q.length ≤ p.length := by
  rcases List.mem_append.mp hq with h | h
  · rcases List.mem_map.mp h with ⟨i, _, rfl⟩
    rw [List.length_take]
    omega
  · have h1 : q = p := List.mem_singleton.mp h
    rw [h1]

/-- C6: on a board whose resolved directory does not exist (and, as on a real
filesystem, has no stray entries below it), `get_resource` creates the
directory with its parents and returns the empty array instead of an error;
a second call on the same still-empty board also returns the empty array
without error and without changing the filesystem. -/
theorem get_resource_autoprovision (fs fs' : FS) (tasks_dir path : String)
    (hfresh : ∀ e ∈ fs.entries, segsLe (segsOf (tasks_dir ++ "/" ++ path)) e.1 = false)
    (hcreate : FS.create_dir_all fs (segsOf (tasks_dir ++ "/" ++ path)) = .ok fs') :
    get_resource fs tasks_dir path = .ok (fs', Json.arr []) ∧
    get_resource fs' tasks_dir path = .ok (fs', Json.arr []) := by
  have hfind : fs.entries.find?
      (fun e => decide (e.1 = segsOf (tasks_dir ++ "/" ++ path))) = none := by
    rw [List.find?_eq_none]
    intro e he hdec
    have h1 : e.1 = segsOf (tasks_dir ++ "/" ++ path) := of_decide_eq_true hdec
    have h2 := hfresh e he
    rw [h1, segsLe_refl] at h2
    exact absurd h2 (by simp)
  have hmiss : FS.find fs (segsOf (tasks_dir ++ "/" ++ path)) = none := by
    unfold FS.find
    rw [hfind]
    rfl
  have hbase : segsOf (tasks_dir ++ "/" ++ path) ∈
      prefixesOf (segsOf (tasks_dir ++ "/" ++ path)) := by
    unfold prefixesOf
    exact List.mem_append_right _ (List.mem_singleton.mpr rfl)
  have hdir : FS.find fs' (segsOf (tasks_dir ++ "/" ++ path)) = some Entry.dir :=
    mkdirs_mkdir (prefixesOf (segsOf (tasks_dir ++ "/" ++ path))) fs fs' hcreate _ hbase
  have hnil : fs'.entries.filterMap (fun e =>
      if segsLe (segsOf (tasks_dir ++ "/" ++ path)) e.1 &&
        (e.1.length == (segsOf (tasks_dir ++ "/" ++ path)).length + 1)
      then some ((e.1.drop (segsOf (tasks_dir ++ "/" ++ path)).length).headD "", e.2)
      else none) = [] := by
    rw [List.filterMap_eq_nil_iff]
    intro e he
    rcases mkdirs_entries_sub _ fs fs' hcreate e he with h1 | h2
    · simp [hfresh e h1]
    · have hlen : e.1.length ≤ (segsOf (tasks_dir ++ "/" ++ path)).length :=
        prefixesOf_length_le _ _ h2.1
      have hb : (e.1.length == (segsOf (tasks_dir ++ "/" ++ path)).length + 1) = false := by
        simp only [beq_eq_false_iff_ne]
        omega
      simp [hb]
  have hread : FS.read_dir fs' (tasks_dir ++ "/" ++ path) = .ok [] := by
    simp only [FS.read_dir]
    rw [if_pos hdir, hnil]
  constructor
  · simp only [get_resource]
    rw [if_pos hmiss, hcreate]
  · simp only [get_resource]
    rw [if_neg (by rw [hdir]; simp), hread]
    rfl

/-- Witness for C6: board "b" on the empty filesystem is auto-provisioned to
`fsProv` and both calls return the empty array. -/
theorem get_resource_autoprovision_witness :
    get_resource (⟨[]⟩ : FS) "tasks" "b" = .ok (fsProv, Json.arr []) ∧
    get_resource fsProv "tasks" "b" = .ok (fsProv, Json.arr []) :=
  get_resource_autoprovision ⟨[]⟩ fsProv "tasks" "b"
    (by intro e he; exact absurd he (List.not_mem_nil e)) rfl
